import Mathlib

/-!
Shallow embedding of the environment activation and diffing engine of the
vscode-spark-sdk-manager extension (src/src/environment.ts), together with
proofs about its behaviour.

JavaScript strings are modelled as Lean `String`; the handful of string
primitives the source uses (`split`, `indexOf`-based first-=-split, `trim`,
`includes`) are re-implemented here over `List Char` by structural recursion so
that every definition evaluates inside the kernel.  JavaScript `Map` objects
(insertion-ordered, unique keys, `set` overwriting in place) are modelled as
association lists with an in-place-overwriting `mapSet`.
-/

namespace PixiSdk

/-- Environment-variable map: association list from variable name to value,
modelling a JavaScript `Map<string, string>` (or a plain object). -/
abbrev EnvMap := List (String × String)

/-- Lookup modelling `Map.get` / property access: first entry with the key. -/
def mapGet : EnvMap → String → Option String
  | [], _ => none
  | (k', v) :: rest, k => if k' = k then some v else mapGet rest k

/-- Update modelling `Map.set`: overwrite the existing entry in place, or
append a new entry at the end. -/
def mapSet : EnvMap → String → String → EnvMap
  | [], k, v => [(k, v)]
  | (k', v') :: rest, k, v =>
      if k' = k then (k, v) :: rest else (k', v') :: mapSet rest k v

/-- Test modelling JavaScript `sub` being a prefix of `s` over characters. -/
def startsWith : List Char → List Char → Bool
  | _, [] => true
  | [], _ :: _ => false
  | c :: cs, d :: ds => c = d && startsWith cs ds

/-- Test modelling JavaScript `String.prototype.includes`: does `sub` occur
contiguously inside the second argument? -/
def containsSub (sub : List Char) : List Char → Bool
  | [] => sub.isEmpty
  | c :: rest => startsWith (c :: rest) sub || containsSub sub rest

/-- JavaScript `s.includes(sub)` on `String`. -/
def strIncludes (s sub : String) : Bool := containsSub sub.data s.data

/-- Auxiliary splitter with an explicit fuel argument (the fuel starts at the
length of the input, which suffices because each step consumes at least one
character when the separator is nonempty). -/
def splitOnSepAux (sep : List Char) : Nat → List Char → List Char → List (List Char)
  | _, [], acc => [acc.reverse]
  | 0, s, acc => [acc.reverse ++ s]
  | fuel + 1, c :: rest, acc =>
      if startsWith (c :: rest) sep then
        acc.reverse :: splitOnSepAux sep fuel (List.drop sep.length (c :: rest)) []
      else
        splitOnSepAux sep fuel rest (c :: acc)

/-- JavaScript `s.split(sep)` for a nonempty separator: splits on
non-overlapping left-to-right occurrences of `sep`. -/
def splitOnSep (s sep : List Char) : List (List Char) :=
  if sep.isEmpty then [s] else splitOnSepAux sep s.length s []

/-- Whitespace test used by `trimChars`, covering the whitespace the engine
can actually meet in environment dumps. -/
def isSpaceChar (c : Char) : Bool := c = ' ' || c = '\t' || c = '\n' || c = '\r'

/-- JavaScript `String.prototype.trim` over characters. -/
def trimChars (l : List Char) : List Char :=
  ((l.dropWhile isSpaceChar).reverse.dropWhile isSpaceChar).reverse

/-- Split a line at its first `=` character, returning the parts before and
after it; `none` when the line has no `=` (JavaScript `indexOf` returning -1).
-/
def splitFirstEq : List Char → Option (List Char × List Char)
  | [] => none
  | c :: rest =>
      if c = '=' then some ([], rest)
      else
        match splitFirstEq rest with
        | none => none
        | some (k, v) => some (c :: k, v)

/-- Parsing of one line of an environment dump, from the `parseEnv` closure of
`activateOfflineEnvironment` (environment.ts lines 1397-1409): the line is
split at the first `=`, which must not be at position 0; key and value are
trimmed; the key must be nonempty after trimming. -/
def parseLine (line : List Char) : Option (String × String) :=
  match splitFirstEq line with
  | none => none
  | some ([], _) => none
  | some (kcs, vcs) =>
      let key := String.mk (trimChars kcs)
      let value := String.mk (trimChars vcs)
      if key = "" then none else some (key, value)

/-- Split an environment dump into lines at newline characters, modelling
`output.split(String.fromCharCode 10)`. -/
def splitLines : List Char → List (List Char)
  | [] => [[]]
  | c :: rest =>
      if c = '\n' then [] :: splitLines rest
      else
        match splitLines rest with
        | [] => [[c]]
        | l :: ls => (c :: l) :: ls

/-- The `parseEnv` closure of `activateOfflineEnvironment` (environment.ts
lines 1397-1409): parse every line of a dump into a map, later lines
overwriting earlier ones with the same key. -/
def parseEnv (output : List Char) : EnvMap :=
  (splitLines output).foldl
    (fun m line =>
      match parseLine line with
      | some (k, v) => mapSet m k v
      | none => m)
    []

/-- The fixed exclusion list of the diff loop (environment.ts line 1420). -/
def excludedKeys : List String :=
  ["_", "SHLVL", "PWD", "OLDPWD", "TERM", "TERMINFO", "TERMINFO_DIRS"]

/-- Body of the diff loop (environment.ts lines 1415-1422): an after entry is
skipped when its value equals the before value, skipped when its key is on
the exclusion list, and otherwise stored with `Map.set`. -/
def diffStep (beforeEnv : EnvMap) (acc : EnvMap) (kv : String × String) : EnvMap :=
  if mapGet beforeEnv kv.1 = some kv.2 then acc
  else if excludedKeys.contains kv.1 then acc
  else mapSet acc kv.1 kv.2

/-- The diff loop of `activateOfflineEnvironment` (environment.ts lines
1413-1423): for every entry of the after map, keep it when its value differs
from (or is absent in) the before map and the key is not on the exclusion
list. -/
def computeEnvUpdates (beforeEnv afterEnv : EnvMap) : EnvMap :=
  afterEnv.foldl (diffStep beforeEnv) []

/-- Predicate characterising which after entries the diff loop keeps. -/
def updateKept (beforeEnv : EnvMap) (kv : String × String) : Bool :=
  !(mapGet beforeEnv kv.1 == some kv.2) && !(excludedKeys.contains kv.1)

/-- The unique separator token (environment.ts line 1373). -/
def separator : String := "___PIXI_VSCODE_SEPARATOR___"

/-- Splitting and diffing of the diff subprocess output (environment.ts lines
1389-1423): split the captured stdout on the separator; fewer than two parts
is the hard error thrown at line 1394; otherwise diff the parsed first part
(before) against the parsed second part (after). -/
def activationDiff (stdout : String) : Except String EnvMap :=
  match splitOnSep stdout.data separator.data with
  | p0 :: p1 :: _ => .ok (computeEnvUpdates (parseEnv p0) (parseEnv p1))
  | _ => .error "Failed to capture environment diff (separator not found)."

/-- The conflict variables cleared by the offline application step
(environment.ts line 1434). -/
def conflictVars : List String :=
  ["VIRTUAL_ENV", "PYTHONPATH", "CONDA_DEFAULT_ENV", "CONDA_PYTHON_EXE", "CONDA_PROMPT_MODIFIER"]

/-- The sequence of `collection.replace` writes made by the offline
application step (environment.ts lines 1433-1446): first an empty-string
replace for every conflict variable the update set does not itself set, then
one replace per computed update. -/
def offlineApplyWrites (envUpdates : EnvMap) : EnvMap :=
  (conflictVars.filter (fun c => (mapGet envUpdates c).isNone)).map (fun c => (c, ""))
    ++ envUpdates

/-- The writes of a full offline diff run (environment.ts lines 1389-1446):
on a diff capture failure the exception aborts the run before any write. -/
def offlineRunWrites (stdout : String) : EnvMap :=
  match activationDiff stdout with
  | .ok updates => offlineApplyWrites updates
  | .error _ => []

/-- Terminal-identity variable keys (environment.ts lines 1196 and 1420). -/
def terminalVars : List String := ["TERM", "TERMINFO", "TERMINFO_DIRS"]

/-- The writes of the cache application loop of `activate` (environment.ts
lines 1195-1200): each cached variable is replaced, except the terminal
variables, which are skipped. -/
def cacheApplyWrites (envVars : EnvMap) : EnvMap :=
  envVars.filter (fun kv => !(terminalVars.contains kv.1))

/-- The cached snapshot persisted on successful offline activation
(environment.ts lines 1452-1456, the timestamp omitted as inert: it is
recorded but never read back by any decision). -/
structure CachedSnapshot where
  envName : String
  envVars : EnvMap

/-- The cache short-circuit of `activate` (environment.ts lines 1190-1202):
cached variables are applied only when the requested environment is the
offline name and the snapshot records exactly that name. -/
def cacheCheckWrites (currentEnv offlineName : String) (cached : Option CachedSnapshot) : EnvMap :=
  if currentEnv = offlineName then
    match cached with
    | some c => if c.envName = offlineName then cacheApplyWrites c.envVars else []
    | none => []
  else []

/-- The PATH special case of `doActivate` (environment.ts lines 292-296):
prepend the pixi binary directory with the platform delimiter unless the
value already contains it. -/
def livePathValue (pixiBinDir delim value : String) : String :=
  if strIncludes value pixiBinDir then value else pixiBinDir ++ delim ++ value

/-- The sequence of `collection.replace` writes of the live (shell-hook JSON)
application loop of `doActivate` (environment.ts lines 281-301): every parsed
variable is written as a replace, with only the PATH special case applied. -/
def liveApplyWrites (pixiBinDir delim : String) (envVars : EnvMap) : EnvMap :=
  envVars.map (fun kv =>
    if kv.1 = "PATH" then (kv.1, livePathValue pixiBinDir delim kv.2) else kv)

/-- Replay of a write sequence onto a collection state, each write a keyed
replace on `EnvironmentVariableCollection`. -/
def applyWrites (coll : EnvMap) (writes : EnvMap) : EnvMap :=
  writes.foldl (fun acc kv => mapSet acc kv.1 kv.2) coll

/-- Collection state after an activation through the `activate` entry point
(environment.ts lines 1138-1140): the collection is cleared before any write
of the attempt. -/
def activateCollectionAfter (_prev : EnvMap) (writes : EnvMap) : EnvMap :=
  applyWrites [] writes

/-- Collection state after `doActivate` applied its writes (environment.ts
lines 210-301): `doActivate` contains no clear call, so the writes land on
top of whatever the collection already held. -/
def doActivateCollectionAfter (prev : EnvMap) (writes : EnvMap) : EnvMap :=
  applyWrites prev writes

/-- Collection state after the trusted-default path of `autoActivate`
(environment.ts lines 157-174): when the discovered environment list is empty
and a default is configured, `doActivate` is dispatched directly, bypassing
the clear performed inside `activate`. -/
def autoActivateTrustedDefaultCollectionAfter (prev : EnvMap) (writes : EnvMap) : EnvMap :=
  doActivateCollectionAfter prev writes

/-- The known foreign deactivate command identifiers (environment.ts lines
1147-1151). -/
def deactivateCandidates : List String :=
  ["corker.micromamba.deactivate.environment", "micromamba.deactivate", "micromamba.deactivateEnvironment"]

/-- JavaScript truthiness of an optional environment-variable value. -/
def truthy : Option String → Bool
  | none => false
  | some s => !(s = "")

/-- Check 1 of the conflict gate (environment.ts lines 1166-1168): the conda
prefix variable is truthy, the default-env variable is not the base name, and
the prefix does not contain the pixi environments directory. -/
def isPrefixActive (condaPrefix condaDefaultEnv : Option String) : Bool :=
  truthy condaPrefix
    && !(condaDefaultEnv == some "base")
    && !(strIncludes (condaPrefix.getD "") ".pixi/envs")

/-- Check 2 of the conflict gate (environment.ts line 1173): PATH contains a
micromamba per-environment segment, in either separator style. -/
def isPathActive (path : String) : Bool :=
  strIncludes path "micromamba/envs/" || strIncludes path "micromamba\\envs\\"

/-- The conflict gate of `activate` (environment.ts lines 1145-1185): the
foreign deactivate command is invoked exactly when one of the candidate
commands is registered and either ambient check fires. -/
def shouldInvokeDeactivate (registered : List String) (condaPrefix condaDefaultEnv : Option String) (path : String) : Bool :=
  (deactivateCandidates.find? (fun c => registered.contains c)).isSome
    && (isPrefixActive condaPrefix condaDefaultEnv || isPathActive path)

/-- Modelled from the words of claim C6, for comparison with the source gate:
identical except that the PATH evidence is only the forward-slash segment
micromamba/envs/. -/
def claimedConflictGate (registered : List String) (condaPrefix condaDefaultEnv : Option String) (path : String) : Bool :=
  (deactivateCandidates.find? (fun c => registered.contains c)).isSome
    && (isPrefixActive condaPrefix condaDefaultEnv || strIncludes path "micromamba/envs/")

/-- Platform switch, modelling process.platform as the source consumes it. -/
inductive Platform
  | win32
  | posix
deriving DecidableEq

/-- Joining of a directory and a file name, modelling path.join as used for
the script candidates. -/
def pathJoin (dir name : String) : String := dir ++ "/" ++ name

/-- The activation-script lookup of `activateOfflineEnvironment`
(environment.ts lines 1331-1342): the single candidate directory is the
parent of the environment directory; on Windows activate.bat is tried before
activate.ps1, on POSIX only activate.sh. -/
def findActivationScript (plat : Platform) (parentDir : String) (fsExists : String → Bool) : Option String :=
  match plat with
  | .win32 =>
      if fsExists (pathJoin parentDir "activate.bat") then some (pathJoin parentDir "activate.bat")
      else if fsExists (pathJoin parentDir "activate.ps1") then some (pathJoin parentDir "activate.ps1")
      else none
  | .posix =>
      if fsExists (pathJoin parentDir "activate.sh") then some (pathJoin parentDir "activate.sh")
      else none

/-- Outcome of `activateOfflineEnvironment`: the returned handled flag and
the update writes the call applied. -/
structure OfflineOutcome where
  handled : Bool
  writes : EnvMap

/-- Writes performed by the try block of `activateOfflineEnvironment`
(environment.ts lines 1351-1487): a failing diff subprocess (execResult an
error) or a failing split throws before any write; a successful diff applies
the offline writes. -/
def offlineTryWrites (execResult : Except String String) : EnvMap :=
  match execResult with
  | .error _ => []
  | .ok stdout =>
      match activationDiff stdout with
      | .ok updates => offlineApplyWrites updates
      | .error _ => []

/-- Control flow of `activateOfflineEnvironment` (environment.ts lines
1328-1489): a missing script returns false before the try block (line 1346);
once a script is found, every failure inside the try block is caught at line
1481, only logged and optionally surfaced, and the function still returns
true (line 1488). -/
def activateOfflineEnvironment (plat : Platform) (parentDir : String)
    (fsExists : String → Bool) (execResult : Except String String) : OfflineOutcome :=
  match findActivationScript plat parentDir fsExists with
  | none => ⟨false, []⟩
  | some _ => ⟨true, offlineTryWrites execResult⟩

/-- The two mutually exclusive activation branches of `activate`. -/
inductive ActivationPath
  | offlinePath
  | livePath
deriving DecidableEq

/-- The branch taken by `activate` after the offline attempt (environment.ts
lines 1308-1323): when the attempt reports handled, `activate` returns;
otherwise it falls through to the live `doActivate` path. -/
def dispatchAfterOffline (o : OfflineOutcome) : ActivationPath :=
  if o.handled then .offlinePath else .livePath

/-! Basic lemmas about the association-list map operations. -/

theorem mapGet_eq_none_of_keys_ne {m : EnvMap} {k : String}
    (h : ∀ p ∈ m, p.1 ≠ k) : mapGet m k = none := by
  induction m with
  | nil => rfl
  | cons hd tl ih =>
      have hne : hd.1 ≠ k := h hd (List.mem_cons_self hd tl)
      have : mapGet (hd :: tl) k = mapGet tl k := by
        cases hd with
        | mk a b => simp [mapGet, hne]
      rw [this]
      exact ih (fun p hp => h p (List.mem_cons_of_mem hd hp))

theorem mapGet_append_none {l₁ l₂ : EnvMap} {k : String}
    (h : mapGet l₁ k = none) : mapGet (l₁ ++ l₂) k = mapGet l₂ k := by
  induction l₁ with
  | nil => rfl
  | cons hd tl ih =>
      cases hd with
      | mk a b =>
          by_cases ha : a = k
          · simp [mapGet, ha] at h
          · simp only [mapGet, ha, if_false] at h
            simp only [List.cons_append, mapGet, ha, if_false]
            exact ih h

theorem mapGet_append_some {l₁ l₂ : EnvMap} {k v : String}
    (h : mapGet l₁ k = some v) : mapGet (l₁ ++ l₂) k = some v := by
  induction l₁ with
  | nil => simp [mapGet] at h
  | cons hd tl ih =>
      cases hd with
      | mk a b =>
          by_cases ha : a = k
          · simp only [mapGet, ha, if_true] at h
            simp only [List.cons_append, mapGet, ha, if_true]
            exact h
          · simp only [mapGet, ha, if_false] at h
            simp only [List.cons_append, mapGet, ha, if_false]
            exact ih h

theorem mapGet_mapSet_ne {m : EnvMap} {k' k : String} (v : String)
    (h : k' ≠ k) : mapGet (mapSet m k' v) k = mapGet m k := by
  induction m with
  | nil => simp [mapSet, mapGet, h]
  | cons hd tl ih =>
      cases hd with
      | mk a b =>
          by_cases ha : a = k'
          · simp [mapSet, mapGet, ha, h]
          · simp only [mapSet, ha, if_false]
            by_cases hak : a = k
            · simp [mapGet, hak]
            · simp only [mapGet, hak, if_false]
              exact ih

theorem mapSet_eq_append {m : EnvMap} {k : String} (v : String)
    (h : ∀ p ∈ m, p.1 ≠ k) : mapSet m k v = m ++ [(k, v)] := by
  induction m with
  | nil => rfl
  | cons hd tl ih =>
      cases hd with
      | mk a b =>
          have hne : a ≠ k := h (a, b) (List.mem_cons_self _ tl)
          simp only [mapSet, hne, if_false, List.cons_append, List.cons.injEq, true_and]
          exact ih (fun p hp => h p (List.mem_cons_of_mem _ hp))

/-! Characterisation of the diff loop as a filter over the after map. -/

theorem foldl_diffStep_append (b : EnvMap) :
    ∀ (a acc : EnvMap), (a.map Prod.fst).Nodup →
      (∀ kv ∈ a, ∀ p ∈ acc, p.1 ≠ kv.1) →
      a.foldl (diffStep b) acc = acc ++ a.filter (updateKept b)
  | [], acc, _, _ => by simp
  | kv :: rest, acc, hnd, hdisj => by
      obtain ⟨k, v⟩ := kv
      simp only [List.map_cons, List.nodup_cons] at hnd
      obtain ⟨hk1, hnd'⟩ := hnd
      have hdisj' : ∀ kv ∈ rest, ∀ p ∈ acc, p.1 ≠ kv.1 :=
        fun kv hkv => hdisj kv (List.mem_cons_of_mem _ hkv)
      by_cases h1 : mapGet b k = some v
      · have hstep : diffStep b acc (k, v) = acc := by
          unfold diffStep
          rw [if_pos h1]
        have hkeep : updateKept b (k, v) = false := by simp [updateKept, h1]
        have hfc : ((k, v) :: rest).filter (updateKept b) = rest.filter (updateKept b) := by
          simp [List.filter_cons, hkeep]
        rw [List.foldl_cons, hstep, hfc, foldl_diffStep_append b rest acc hnd' hdisj']
      · by_cases h2 : excludedKeys.contains k = true
        · have hstep : diffStep b acc (k, v) = acc := by
            unfold diffStep
            rw [if_neg h1, if_pos h2]
          have h2' : k ∈ excludedKeys := by simpa using h2
          have hkeep : updateKept b (k, v) = false := by simp [updateKept, h2']
          have hfc : ((k, v) :: rest).filter (updateKept b) = rest.filter (updateKept b) := by
            simp [List.filter_cons, hkeep]
          rw [List.foldl_cons, hstep, hfc, foldl_diffStep_append b rest acc hnd' hdisj']
        · have hstep : diffStep b acc (k, v) = mapSet acc k v := by
            unfold diffStep
            rw [if_neg h1, if_neg h2]
          have h2' : k ∉ excludedKeys := by simpa using h2
          have hkeep : updateKept b (k, v) = true := by simp [updateKept, h1, h2']
          have hfc : ((k, v) :: rest).filter (updateKept b)
              = (k, v) :: rest.filter (updateKept b) := by
            simp [List.filter_cons, hkeep]
          have hset : mapSet acc k v = acc ++ [(k, v)] :=
            mapSet_eq_append v (hdisj (k, v) (List.mem_cons_self _ _))
          have hdisj'' : ∀ kv ∈ rest, ∀ p ∈ acc ++ [(k, v)], p.1 ≠ kv.1 := by
            intro kv hkv p hp
            rcases List.mem_append.1 hp with hpa | hpk
            · exact hdisj kv (List.mem_cons_of_mem _ hkv) p hpa
            · have hpkv : p = (k, v) := by simpa using hpk
              subst hpkv
              intro hcontra
              have hk : k = kv.1 := hcontra
              exact hk1 (hk ▸ List.mem_map_of_mem Prod.fst hkv)
          rw [List.foldl_cons, hstep, hset,
            foldl_diffStep_append b rest (acc ++ [(k, v)]) hnd' hdisj'',
            hfc, List.append_assoc]
          rfl

theorem computeEnvUpdates_eq_filter {b a : EnvMap}
    (h : (a.map Prod.fst).Nodup) :
    computeEnvUpdates b a = a.filter (updateKept b) := by
  simpa [computeEnvUpdates] using foldl_diffStep_append b a [] h (by simp)

theorem mapGet_filter {p : String × String → Bool} :
    ∀ {a : EnvMap}, (a.map Prod.fst).Nodup → ∀ {k v : String},
      (mapGet (a.filter p) k = some v ↔ mapGet a k = some v ∧ p (k, v) = true)
  | [], _, k, v => by simp [mapGet]
  | (a₁, b₁) :: rest, hnd, k, v => by
      simp only [List.map_cons, List.nodup_cons] at hnd
      obtain ⟨hk1, hnd'⟩ := hnd
      by_cases hp : p (a₁, b₁) = true
      · have hfc : ((a₁, b₁) :: rest).filter p = (a₁, b₁) :: rest.filter p := by
          simp [List.filter_cons, hp]
        rw [hfc]
        by_cases hak : a₁ = k
        · subst hak
          simp only [mapGet, if_pos rfl]
          constructor
          · intro hv
            refine ⟨hv, ?_⟩
            injection hv with hbv
            rw [← hbv]
            exact hp
          · exact fun ⟨hv, _⟩ => hv
        · simp only [mapGet, hak, if_false]
          exact mapGet_filter hnd'
      · have hfc : ((a₁, b₁) :: rest).filter p = rest.filter p := by
          simp [List.filter_cons, hp]
        rw [hfc]
        by_cases hak : a₁ = k
        · subst hak
          simp only [mapGet, if_pos rfl]
          constructor
          · intro hv
            exfalso
            have hnone : mapGet (rest.filter p) a₁ = none := by
              apply mapGet_eq_none_of_keys_ne
              intro q hq
              have hq' : q ∈ rest := List.mem_of_mem_filter hq
              intro hcontra
              exact hk1 (hcontra ▸ List.mem_map_of_mem Prod.fst hq')
            rw [hnone] at hv
            exact Option.noConfusion hv
          · intro ⟨hv, hpv⟩
            exfalso
            injection hv with hbv
            rw [← hbv] at hpv
            exact hp hpv
        · simp only [mapGet, hak, if_false]
          exact mapGet_filter hnd'

/-! Lemmas about substring containment, used by the PATH special case. -/

theorem startsWith_append (l r : List Char) : startsWith (l ++ r) l = true := by
  induction l with
  | nil => cases r <;> rfl
  | cons c cs ih => simp [startsWith, ih]

theorem containsSub_nil (s : List Char) : containsSub [] s = true := by
  cases s with
  | nil => rfl
  | cons c rest => simp [containsSub, startsWith]

theorem containsSub_append_self (sub r : List Char) : containsSub sub (sub ++ r) = true := by
  cases sub with
  | nil => simpa using containsSub_nil r
  | cons c cs =>
      have h := startsWith_append (c :: cs) r
      simp only [List.cons_append, containsSub, Bool.or_eq_true]
      exact Or.inl h

theorem string_data_append (s t : String) : (s ++ t).data = s.data ++ t.data := by
  cases s
  cases t
  rfl

theorem strIncludes_prepended (dir delim value : String) :
    strIncludes (dir ++ delim ++ value) dir = true := by
  unfold strIncludes
  rw [string_data_append, string_data_append, List.append_assoc]
  exact containsSub_append_self dir.data (delim.data ++ value.data)

/-! Lemmas about keys the application steps never write. -/

theorem mapGet_mapConst_none {l : List String} {t : String}
    (h : ∀ c ∈ l, c ≠ t) : mapGet (l.map (fun c => (c, ""))) t = none := by
  apply mapGet_eq_none_of_keys_ne
  intro p hp
  obtain ⟨c, hc, rfl⟩ := List.mem_map.1 hp
  exact h c hc

theorem mapGet_mapConst_some {l : List String} {t : String}
    (h : t ∈ l) : mapGet (l.map (fun c => (c, ""))) t = some "" := by
  induction l with
  | nil => cases h
  | cons c cs ih =>
      by_cases hc : c = t
      · simp [mapGet, hc]
      · have ht : t ∈ cs := by
          rcases List.mem_cons.1 h with h' | h'
          · exact absurd h'.symm hc
          · exact h'
        simp only [List.map_cons, mapGet, hc, if_false]
        exact ih ht

theorem foldl_diffStep_excluded {b : EnvMap} {k : String}
    (hk : k ∈ excludedKeys) :
    ∀ (a acc : EnvMap), mapGet acc k = none →
      mapGet (a.foldl (diffStep b) acc) k = none
  | [], _, hacc => hacc
  | kv :: rest, acc, hacc => by
      rw [List.foldl_cons]
      apply foldl_diffStep_excluded hk rest
      unfold diffStep
      by_cases h1 : mapGet b kv.1 = some kv.2
      · rw [if_pos h1]
        exact hacc
      · rw [if_neg h1]
        by_cases h2 : excludedKeys.contains kv.1 = true
        · rw [if_pos h2]
          exact hacc
        · rw [if_neg h2]
          have hne : kv.1 ≠ k := by
            intro he
            apply h2
            rw [he]
            simpa using hk
          rw [mapGet_mapSet_ne _ hne]
          exact hacc

theorem computeEnvUpdates_excluded {b a : EnvMap} {k : String}
    (hk : k ∈ excludedKeys) : mapGet (computeEnvUpdates b a) k = none :=
  foldl_diffStep_excluded hk a [] rfl

theorem terminal_not_conflict : ∀ x ∈ terminalVars, x ∉ conflictVars ∧ x ∈ excludedKeys := by
  decide

theorem cacheApplyWrites_terminal_none {vars : EnvMap} {t : String}
    (ht : t ∈ terminalVars) : mapGet (cacheApplyWrites vars) t = none := by
  apply mapGet_eq_none_of_keys_ne
  intro q hq
  obtain ⟨hqv, hqp⟩ := List.mem_filter.1 hq
  intro hcontra
  rw [hcontra] at hqp
  simp at hqp
  exact hqp ht

theorem offlineApplyWrites_terminal_none {u : EnvMap} {t : String}
    (ht : t ∈ terminalVars) (hu : mapGet u t = none) :
    mapGet (offlineApplyWrites u) t = none := by
  unfold offlineApplyWrites
  have hnc : t ∉ conflictVars := (terminal_not_conflict t ht).1
  have h1 : mapGet ((conflictVars.filter fun c => (mapGet u c).isNone).map (fun c => (c, ""))) t
      = none := by
    apply mapGet_mapConst_none
    intro c hc hct
    exact hnc (hct ▸ List.mem_of_mem_filter hc)
  rw [mapGet_append_none h1]
  exact hu

theorem offlineApplyWrites_conflict_cleared {u : EnvMap} {c : String}
    (hc : c ∈ conflictVars) (hu : mapGet u c = none) :
    mapGet (offlineApplyWrites u) c = some "" := by
  unfold offlineApplyWrites
  apply mapGet_append_some
  apply mapGet_mapConst_some
  exact List.mem_filter.2 ⟨hc, by simp [hu]⟩

/-! Claim theorems. -/

/-- C1: Shell Diff Engine correctness: for every key present in the after
block, the computed update set contains that key, with the after value,
exactly when the value differs from, or is absent in, the before block and
the key is not on the fixed exclusion list; in particular a script exporting
FOO=bar over a baseline lacking FOO yields the single update FOO=bar, and
re-exporting an identical FOO=bar yields the empty update set. -/
theorem c1_shell_diff_engine_correctness :
    (∀ (beforeEnv afterEnv : EnvMap) (k v : String),
      (afterEnv.map Prod.fst).Nodup →
      (mapGet (computeEnvUpdates beforeEnv afterEnv) k = some v ↔
        mapGet afterEnv k = some v ∧ mapGet beforeEnv k ≠ some v
          ∧ excludedKeys.contains k = false))
    ∧ computeEnvUpdates [("HOME", "/home/user")]
        [("HOME", "/home/user"), ("FOO", "bar")] = [("FOO", "bar")]
    ∧ computeEnvUpdates [("HOME", "/home/user"), ("FOO", "bar")]
        [("HOME", "/home/user"), ("FOO", "bar")] = [] := by
  refine ⟨?_, by decide, by decide⟩
  intro b a k v hnd
  rw [computeEnvUpdates_eq_filter hnd, mapGet_filter hnd]
  constructor
  · rintro ⟨h1, h2⟩
    simp only [updateKept, Bool.and_eq_true, Bool.not_eq_true',
      beq_eq_false_iff_ne] at h2
    refine ⟨h1, h2.1, ?_⟩
    simpa using h2.2
  · rintro ⟨h1, h2, h3⟩
    refine ⟨h1, ?_⟩
    have h3' : ¬ k ∈ excludedKeys := by simpa using h3
    simp [updateKept, h2, h3']

/-- Witness applying the C1 theorem at the FOO=bar scenario. -/
theorem c1_shell_diff_engine_correctness_witness :
    (([("HOME", "/home/user"), ("FOO", "bar")] : EnvMap).map Prod.fst).Nodup
    ∧ mapGet (computeEnvUpdates [("HOME", "/home/user")]
        [("HOME", "/home/user"), ("FOO", "bar")]) "FOO" = some "bar" :=
  ⟨by decide, (c1_shell_diff_engine_correctness.1 [("HOME", "/home/user")]
      [("HOME", "/home/user"), ("FOO", "bar")] "FOO" "bar" (by decide)).mpr
    ⟨by decide, by decide, by decide⟩⟩

/-- C5: PATH augmentation idempotence: a resolved PATH value lacking the
pixi binary directory gets the directory prepended exactly once with the
platform delimiter followed by the value; a value already containing the
directory is applied unchanged; re-applying the computation to its own
output never duplicates the directory. -/
theorem c5_path_augmentation (pixiBinDir delim value : String) :
    (strIncludes value pixiBinDir = false →
      livePathValue pixiBinDir delim value = pixiBinDir ++ delim ++ value)
    ∧ (strIncludes value pixiBinDir = true →
      livePathValue pixiBinDir delim value = value)
    ∧ livePathValue pixiBinDir delim (livePathValue pixiBinDir delim value)
      = livePathValue pixiBinDir delim value := by
  refine ⟨?_, ?_, ?_⟩
  · intro h
    unfold livePathValue
    rw [if_neg (by simp [h])]
  · intro h
    unfold livePathValue
    rw [if_pos h]
  · by_cases h : strIncludes value pixiBinDir = true
    · unfold livePathValue
      rw [if_pos h, if_pos h]
    · have hfirst : livePathValue pixiBinDir delim value
          = pixiBinDir ++ delim ++ value := by
        unfold livePathValue
        rw [if_neg h]
      rw [hfirst]
      unfold livePathValue
      rw [if_pos (strIncludes_prepended pixiBinDir delim value)]

/-- Witness applying the C5 theorem at a concrete PATH value. -/
theorem c5_path_augmentation_witness :
    strIncludes "/usr/bin" "/ws/.pixi/bin" = false
    ∧ livePathValue "/ws/.pixi/bin" ":" "/usr/bin"
      = "/ws/.pixi/bin" ++ ":" ++ "/usr/bin" :=
  ⟨by decide, (c5_path_augmentation "/ws/.pixi/bin" ":" "/usr/bin").1 (by decide)⟩

/-- C8: Diff capture failure: when splitting the diff subprocess output on
the separator token yields fewer than two parts, the offline diff
computation fails with the error naming the missing separator, and no
variable update is applied from that run. -/
theorem c8_diff_capture_failure (stdout : String)
    (h : (splitOnSep stdout.data separator.data).length < 2) :
    activationDiff stdout
      = .error "Failed to capture environment diff (separator not found)."
    ∧ offlineRunWrites stdout = [] := by
  have herr : activationDiff stdout
      = .error "Failed to capture environment diff (separator not found)." := by
    unfold activationDiff
    rcases hs : splitOnSep stdout.data separator.data with _ | ⟨p0, _ | ⟨p1, rest⟩⟩
    · rfl
    · rfl
    · exfalso
      rw [hs] at h
      simp only [List.length_cons] at h
      omega
  refine ⟨herr, ?_⟩
  unfold offlineRunWrites
  rw [herr]

/-- Witness applying the C8 theorem to output missing the separator. -/
theorem c8_diff_capture_failure_witness :
    (splitOnSep ("PATH=/usr/bin").data separator.data).length < 2
    ∧ (activationDiff "PATH=/usr/bin"
        = .error "Failed to capture environment diff (separator not found)."
      ∧ offlineRunWrites "PATH=/usr/bin" = []) :=
  ⟨by decide, c8_diff_capture_failure "PATH=/usr/bin" (by decide)⟩

/-- C9: ScriptNotFound fallback: with no platform-appropriate activation
script in the parent directory, the offline attempt returns unhandled with
no error and no writes, and the caller falls through to the live activation
path. -/
theorem c9_script_not_found_fallback (plat : Platform) (parentDir : String)
    (fsExists : String → Bool) (execResult : Except String String)
    (h : findActivationScript plat parentDir fsExists = none) :
    activateOfflineEnvironment plat parentDir fsExists execResult = ⟨false, []⟩
    ∧ dispatchAfterOffline
        (activateOfflineEnvironment plat parentDir fsExists execResult)
      = .livePath := by
  have h1 : activateOfflineEnvironment plat parentDir fsExists execResult
      = ⟨false, []⟩ := by
    unfold activateOfflineEnvironment
    rw [h]
  refine ⟨h1, ?_⟩
  rw [h1]
  rfl

/-- Witness applying the C9 theorem on a filesystem with no script. -/
theorem c9_script_not_found_fallback_witness :
    findActivationScript .posix "/ws/.pixi/envs" (fun _ => false) = none
    ∧ (activateOfflineEnvironment .posix "/ws/.pixi/envs" (fun _ => false)
        (.ok "") = ⟨false, []⟩
      ∧ dispatchAfterOffline (activateOfflineEnvironment .posix "/ws/.pixi/envs"
          (fun _ => false) (.ok "")) = .livePath) :=
  ⟨rfl, c9_script_not_found_fallback _ _ _ _ rfl⟩

/-- C10: once an offline activation script is found, the attempt reports
handled even when the diff subprocess or the subsequent split, parse or
apply phase fails, and the caller does not fall back to the live path for a
present-but-broken script. -/
theorem c10_script_found_always_handled (plat : Platform) (parentDir s : String)
    (fsExists : String → Bool) (execResult : Except String String)
    (h : findActivationScript plat parentDir fsExists = some s) :
    (activateOfflineEnvironment plat parentDir fsExists execResult).handled = true
    ∧ dispatchAfterOffline
        (activateOfflineEnvironment plat parentDir fsExists execResult)
      = .offlinePath := by
  have h1 : (activateOfflineEnvironment plat parentDir fsExists execResult).handled
      = true := by
    unfold activateOfflineEnvironment
    rw [h]
  refine ⟨h1, ?_⟩
  unfold dispatchAfterOffline
  rw [h1]
  rfl

/-- Witness applying the C10 theorem with a present script and a failing
subprocess. -/
theorem c10_script_found_always_handled_witness :
    findActivationScript .posix "/ws/.pixi/envs" (fun _ => true)
      = some "/ws/.pixi/envs/activate.sh"
    ∧ ((activateOfflineEnvironment .posix "/ws/.pixi/envs" (fun _ => true)
        (.error "script crashed")).handled = true
      ∧ dispatchAfterOffline (activateOfflineEnvironment .posix "/ws/.pixi/envs"
          (fun _ => true) (.error "script crashed")) = .offlinePath) :=
  ⟨rfl, c10_script_found_always_handled _ _ "/ws/.pixi/envs/activate.sh" _ _ rfl⟩

/-! Helper characterisations for the conflict gate. -/

theorem findCandidate_isSome_iff (registered : List String) :
    (deactivateCandidates.find? (fun c => registered.contains c)).isSome = true
      ↔ ∃ c, c ∈ deactivateCandidates ∧ c ∈ registered := by
  rw [List.find?_isSome]
  constructor
  · rintro ⟨c, hc, hp⟩
    exact ⟨c, hc, by simpa using hp⟩
  · rintro ⟨c, hc, hr⟩
    exact ⟨c, hc, by simpa using hr⟩

theorem isPrefixActive_iff (cp cde : Option String) :
    isPrefixActive cp cde = true ↔
      ∃ p, cp = some p ∧ p ≠ "" ∧ cde ≠ some "base"
        ∧ strIncludes p ".pixi/envs" = false := by
  cases cp with
  | none => simp [isPrefixActive, truthy]
  | some s =>
      simp only [isPrefixActive, truthy, Option.getD_some, Bool.and_eq_true,
        Bool.not_eq_true', decide_eq_false_iff_not, beq_eq_false_iff_ne,
        Option.some.injEq]
      constructor
      · rintro ⟨⟨hs, hbase⟩, hinc⟩
        exact ⟨s, rfl, hs, hbase, hinc⟩
      · rintro ⟨p, rfl, hs, hbase, hinc⟩
        exact ⟨⟨hs, hbase⟩, hinc⟩

/-- C2 counterexample: the live CLI-driven application path of `doActivate`
writes the terminal-identity key TERM to the collection and process
environment when the shell-hook output sets it, so the claim that no
activation path ever writes TERM fails on the live path. -/
theorem c2_terminal_exclusion_counterexample :
    mapGet (liveApplyWrites "/ws/.pixi/bin" ":"
      [("TERM", "dumb"), ("PATH", "/usr/bin")]) "TERM" = some "dumb" := by
  decide

/-- C2 amended: in the offline diff application and in the cache
application, the terminal-identity keys TERM, TERMINFO and TERMINFO_DIRS are
never written, even when the underlying script or snapshot sets them; the
live CLI-driven path, by contrast, applies whatever keys the shell-hook
output reports. -/
theorem c2_terminal_exclusion_offline_and_cache (b a vars : EnvMap) (t : String)
    (ht : t ∈ terminalVars) :
    mapGet (offlineApplyWrites (computeEnvUpdates b a)) t = none
    ∧ mapGet (cacheApplyWrites vars) t = none := by
  have hex : t ∈ excludedKeys := (terminal_not_conflict t ht).2
  exact ⟨offlineApplyWrites_terminal_none ht (computeEnvUpdates_excluded hex),
    cacheApplyWrites_terminal_none ht⟩

/-- Witness applying the amended C2 theorem at TERM, with a script diff and
a snapshot that both set it. -/
theorem c2_terminal_exclusion_offline_and_cache_witness :
    ("TERM" : String) ∈ terminalVars
    ∧ (mapGet (offlineApplyWrites (computeEnvUpdates []
        [("TERM", "xterm"), ("FOO", "bar")])) "TERM" = none
      ∧ mapGet (cacheApplyWrites [("TERM", "xterm")]) "TERM" = none) :=
  ⟨by decide, c2_terminal_exclusion_offline_and_cache []
    [("TERM", "xterm"), ("FOO", "bar")] [("TERM", "xterm")] "TERM" (by decide)⟩

/-- C3: cache name gate: the cached snapshot is applied only when the
requested environment is the configured offline name and the snapshot
records exactly that name; a snapshot whose recorded name differs from the
requested environment contributes no write. -/
theorem c3_cache_name_gate :
    (∀ (currentEnv offlineName : String) (c : CachedSnapshot),
      c.envName ≠ currentEnv →
      cacheCheckWrites currentEnv offlineName (some c) = [])
    ∧ (∀ (currentEnv offlineName : String) (cached : Option CachedSnapshot),
      cacheCheckWrites currentEnv offlineName cached ≠ [] →
      ∃ c, cached = some c ∧ c.envName = currentEnv ∧ currentEnv = offlineName) := by
  constructor
  · intro currentEnv offlineName c hne
    unfold cacheCheckWrites
    by_cases he : currentEnv = offlineName
    · rw [if_pos he]
      have hcn : ¬ c.envName = offlineName := by
        rw [← he]
        exact hne
      show (if c.envName = offlineName then cacheApplyWrites c.envVars else []) = []
      rw [if_neg hcn]
    · rw [if_neg he]
  · intro currentEnv offlineName cached hne
    unfold cacheCheckWrites at hne
    by_cases he : currentEnv = offlineName
    · rw [if_pos he] at hne
      cases cached with
      | none => exact absurd rfl hne
      | some c =>
          by_cases hc : c.envName = offlineName
          · exact ⟨c, rfl, hc.trans he.symm, he⟩
          · have hne' : (if c.envName = offlineName then
                cacheApplyWrites c.envVars else []) ≠ [] := hne
            rw [if_neg hc] at hne'
            exact absurd rfl hne'
    · rw [if_neg he] at hne
      exact absurd rfl hne

/-- Witness applying the C3 theorem: a snapshot recorded for the offline
name contributes nothing when a different environment is requested. -/
theorem c3_cache_name_gate_witness :
    (CachedSnapshot.mk "env" [("X", "1")]).envName ≠ "dev"
    ∧ cacheCheckWrites "dev" "env" (some (CachedSnapshot.mk "env" [("X", "1")])) = [] :=
  ⟨by decide, c3_cache_name_gate.1 "dev" "env"
    (CachedSnapshot.mk "env" [("X", "1")]) (by decide)⟩

/-- C4: the trusted-default path of `autoActivate` dispatches `doActivate`
directly and `doActivate` performs no clear of the collection, so a value
written by a previous activation survives that activation, violating the
clear-before-apply invariant; the `activate` entry point, by contrast, does
clear first and loses the stale value. -/
theorem c4_trusted_default_path_skips_clear :
    mapGet (autoActivateTrustedDefaultCollectionAfter
        [("STALE_FROM_PREVIOUS_ACTIVATION", "old")]
        (liveApplyWrites "/ws/.pixi/bin" ":" [("PATH", "/ws/.pixi/envs/dev/bin")]))
      "STALE_FROM_PREVIOUS_ACTIVATION" = some "old"
    ∧ mapGet (activateCollectionAfter
        [("STALE_FROM_PREVIOUS_ACTIVATION", "old")]
        (liveApplyWrites "/ws/.pixi/bin" ":" [("PATH", "/ws/.pixi/envs/dev/bin")]))
      "STALE_FROM_PREVIOUS_ACTIVATION" = none := by
  decide

/-- C6 counterexample: with a backslash-separated micromamba environment
segment in PATH and no conda prefix set, the source gate invokes the foreign
deactivate command although the claimed condition, which only recognises the
forward-slash segment, does not hold. -/
theorem c6_conflict_gate_counterexample :
    shouldInvokeDeactivate ["micromamba.deactivate"] none none
      "C:\\micromamba\\envs\\proj\\Scripts;C:\\Windows\\system32" = true
    ∧ claimedConflictGate ["micromamba.deactivate"] none none
      "C:\\micromamba\\envs\\proj\\Scripts;C:\\Windows\\system32" = false := by
  decide

/-- C6 amended: the foreign deactivate command is invoked if and only if one
of the known deactivate command identifiers is registered and ambient
evidence of a non-base, non-self-managed environment exists: either the
conda prefix variable is set and nonempty with the default-env marker not
base and the prefix not containing the pixi environments directory, or PATH
contains a micromamba environments segment in forward-slash or backslash
form; in particular a base environment and an environment inside the pixi
directory never trigger the invocation, while a foreign environment nested
atop a pixi one does. -/
theorem c6_conflict_gate_characterization :
    (∀ (registered : List String) (cp cde : Option String) (path : String),
      shouldInvokeDeactivate registered cp cde path = true ↔
        ((∃ c, c ∈ deactivateCandidates ∧ c ∈ registered) ∧
          ((∃ p, cp = some p ∧ p ≠ "" ∧ cde ≠ some "base"
              ∧ strIncludes p ".pixi/envs" = false)
            ∨ strIncludes path "micromamba/envs/" = true
            ∨ strIncludes path "micromamba\\envs\\" = true)))
    ∧ shouldInvokeDeactivate ["micromamba.deactivate"]
        (some "/home/user/micromamba") (some "base")
        "/home/user/micromamba/bin:/usr/bin" = false
    ∧ shouldInvokeDeactivate ["micromamba.deactivate"]
        (some "/ws/.pixi/envs/default") (some "default")
        "/ws/.pixi/envs/default/bin:/usr/bin" = false
    ∧ shouldInvokeDeactivate ["micromamba.deactivate"]
        (some "/home/user/micromamba/envs/nested") (some "nested")
        "/home/user/micromamba/envs/nested/bin:/ws/.pixi/envs/default/bin:/usr/bin"
      = true := by
  refine ⟨?_, by decide, by decide, by decide⟩
  intro registered cp cde path
  unfold shouldInvokeDeactivate isPathActive
  rw [Bool.and_eq_true, Bool.or_eq_true, Bool.or_eq_true]
  exact and_congr (findCandidate_isSome_iff registered)
    (or_congr (isPrefixActive_iff cp cde) Iff.rfl)

/-- Witness applying the amended C6 theorem at a nested foreign environment
detected through the PATH segment. -/
theorem c6_conflict_gate_characterization_witness :
    shouldInvokeDeactivate ["corker.micromamba.deactivate.environment"] none none
      "/opt/micromamba/envs/dev/bin:/usr/bin" = true :=
  (c6_conflict_gate_characterization.1
      ["corker.micromamba.deactivate.environment"] none none
      "/opt/micromamba/envs/dev/bin:/usr/bin").mpr
    ⟨⟨"corker.micromamba.deactivate.environment", by decide, by decide⟩,
      Or.inr (Or.inl (by decide))⟩

/-- C7 counterexample: the live CLI-driven application of `doActivate`
applies an update set that does not set VIRTUAL_ENV without emitting any
empty-string replace for it, so the claim that every applied update set
clears unset conflict variables fails on the live path. -/
theorem c7_conflict_clearing_counterexample :
    liveApplyWrites "/ws/.pixi/bin" ":" [("FOO", "bar")] = [("FOO", "bar")]
    ∧ mapGet (liveApplyWrites "/ws/.pixi/bin" ":" [("FOO", "bar")])
        "VIRTUAL_ENV" = none := by
  decide

/-- C7 amended: in the offline application step, every known conflict
variable the update set does not explicitly set receives an explicit
empty-string replace in the collection; the live path applies its update set
without this clearing. -/
theorem c7_offline_conflict_clearing (u : EnvMap) (c : String)
    (hc : c ∈ conflictVars) (hu : mapGet u c = none) :
    mapGet (offlineApplyWrites u) c = some "" :=
  offlineApplyWrites_conflict_cleared hc hu

/-- Witness applying the amended C7 theorem at VIRTUAL_ENV. -/
theorem c7_offline_conflict_clearing_witness :
    ("VIRTUAL_ENV" : String) ∈ conflictVars
    ∧ mapGet [("FOO", "bar")] "VIRTUAL_ENV" = none
    ∧ mapGet (offlineApplyWrites [("FOO", "bar")]) "VIRTUAL_ENV" = some "" :=
  ⟨by decide, by decide,
    c7_offline_conflict_clearing [("FOO", "bar")] "VIRTUAL_ENV" (by decide) (by decide)⟩

end PixiSdk
